import Mathlib

set_option maxRecDepth 8000

/-!
Shallow embedding of `fli_encode.py`: the FLI/FLC encoder.

Conventions used throughout:

* A Python `bytes` input buffer is a `List Nat` (each element a byte value).
* The output byte stream is a `List Int`: each element is the value written
  for one byte.  Bytes produced by a signed pack (`struct.pack "<b"`) carry
  their signed value (in `[-128, 127]`); bytes produced unsigned carry their
  value in `[0, 255]`.  This keeps the signed/unsigned interpretation of
  every stream position explicit, exactly as the FLI format defines it.
* `struct.pack` raises `struct.error` when a value does not fit its format;
  fallible packs are modelled with `Option`/error results.  Chunk headers
  (`"<IH"`) and the frame-type header only ever receive values far below
  their format bounds in this program (payloads below 2^32 bytes, at most
  two subchunks), so those packs are modelled as total serializers.
-/

/-- `struct.pack "<b" x`: a signed byte; `struct.error` (`none`) outside `[-128, 127]`. -/
def sbyte (x : Int) : Option Int :=
  if -128 ≤ x ∧ x ≤ 127 then some x else none

/-- `struct.pack "<bB" c b`: a signed count byte followed by an unsigned data byte. -/
def packbB (c : Int) (b : Nat) : Option (List Int) :=
  if -128 ≤ c ∧ c ≤ 127 ∧ b ≤ 255 then some [c, (b : Int)] else none

/-- Python's `data[i:j]`, as the raw bytes written to the output stream. -/
def byteSlice (data : List Nat) (i j : Nat) : List Int :=
  ((data.drop i).take (j - i)).map (fun b : Nat => (b : Int))

/-- Little-endian `u16` serialization (`struct.pack "<H"`). -/
def u16le (x : Nat) : List Int :=
  [((x % 256 : Nat) : Int), ((x / 256 % 256 : Nat) : Int)]

/-- Little-endian `u32` serialization (`struct.pack "<I"`). -/
def u32le (x : Nat) : List Int :=
  [((x % 256 : Nat) : Int), ((x / 256 % 256 : Nat) : Int),
   ((x / 65536 % 256 : Nat) : Int), ((x / 16777216 % 256 : Nat) : Int)]

/-- Final flush of `rle_encode` (`fli_encode.py` lines 36-43): close the open
literal run (`different = true`) or the open repeat run (`different = false`). -/
def rleFlush (data : List Nat) (last_n : Nat) (different : Bool) (pc : Nat)
    (out : List Int) : Option (Nat × List Int) :=
  if different then
    match sbyte (-((data.length - last_n : Nat) : Int)) with
    | none => none
    | some c => some (pc + 1, out ++ c :: byteSlice data last_n data.length)
  else
    match packbB ((data.length - last_n : Nat) : Int) (data.getD (data.length - 1) 0) with
    | none => none
    | some p => some (pc + 1, out ++ p)

/-- The scan loop of `rle_encode` (`fli_encode.py` lines 17-34): `n` walks the
buffer from index 1, `last_n` is the start of the current run, `different`
says whether the current run is literal.  `fuel` bounds the remaining
iterations; callers pass `data.length`, which always suffices (one unit per
index), so the fuel-0 case coincides with loop exit. -/
def rleLoop (data : List Nat) : Nat → Nat → Nat → Bool → Nat → List Int →
    Option (Nat × List Int)
  | 0, _, last_n, different, pc, out => rleFlush data last_n different pc out
  | fuel + 1, n, last_n, different, pc, out =>
    if n < data.length then
      if data.getD n 0 = data.getD (n - 1) 0 then
        if different then
          if last_n < n - 1 then
            match sbyte (-((n - 1 - last_n : Nat) : Int)) with
            | none => none
            | some c =>
              rleLoop data fuel (n + 1) (n - 1) false (pc + 1)
                (out ++ c :: byteSlice data last_n (n - 1))
          else
            rleLoop data fuel (n + 1) (n - 1) false pc out
        else
          rleLoop data fuel (n + 1) last_n false pc out
      else
        if different then
          rleLoop data fuel (n + 1) last_n true pc out
        else
          match packbB ((n - last_n : Nat) : Int) (data.getD (n - 1) 0) with
          | none => none
          | some p => rleLoop data fuel (n + 1) n true (pc + 1) (out ++ p)
    else rleFlush data last_n different pc out

/-- `rle_encode` (`fli_encode.py` lines 9-45): returns the packet count and the
bytes written, or `none` when a `struct.pack` raises (count outside the signed
byte range). -/
def rle_encode (data : List Nat) : Option (Nat × List Int) :=
  if data.isEmpty then some (0, [])
  else rleLoop data data.length 1 0 true 0 []

/-- The FLI byte-run packet decoder (the format's reading rule, used to state
the round-trip law): a negative count `-k` is followed by `k` literal bytes; a
nonnegative count `k` is followed by one byte to be repeated `k` times.  `fuel`
bounds the packet count; one list element is consumed per packet, so
`l.length` always suffices. -/
def rleDecodeF : Nat → List Int → List Nat
  | 0, _ => []
  | _ + 1, [] => []
  | fuel + 1, c :: rest =>
    if c < 0 then
      ((rest.take (-c).toNat).map Int.toNat) ++ rleDecodeF fuel (rest.drop (-c).toNat)
    else
      match rest with
      | [] => []
      | b :: rest2 => List.replicate c.toNat b.toNat ++ rleDecodeF fuel rest2

/-- Decode a byte-run packet stream. -/
def rleDecode (l : List Int) : List Nat := rleDecodeF l.length l

/-- The error kinds the encoder can raise (section 7 of the spec names the
first three; `structError` is a `struct.error` from an out-of-range pack;
`zeroDivision` is Python's `ZeroDivisionError` from `len(data) % 0`). -/
inductive EncErr where
  | paletteNotSet
  | lineLengthMismatch
  | tooManyColors
  | structError
  | zeroDivision
  deriving DecidableEq

/-- `FliChunkType` values used by the encoder. -/
def COLOR_256 : Nat := 4

def BYTE_RUN : Nat := 15

def FRAME_TYPE : Nat := 0xF1FA

/-- `write_chunk_data` (`fli_encode.py` lines 103-105): the bytes appended to
`dest`, namely a 6-byte header (`u32` total size, `u16` type) then the payload. -/
def write_chunk_data (ty : Nat) (data : List Int) : List Int :=
  u32le (data.length + 6) ++ u16le ty ++ data

/-- The per-line body of `write_byte_run` (`fli_encode.py` lines 60-67): for
each `line_length`-slice of the data, run `rle_encode`, clamp a packet count
above `0xff` to 0, pack the count as a signed byte, and emit the count byte
followed by the packed line.  `fuel` bounds the number of lines; callers pass
`data.length`, which always suffices when `L ≥ 1`. -/
def byteRunBody (L : Nat) : Nat → List Nat → Except EncErr (List Int)
  | _, [] => Except.ok []
  | 0, _ :: _ => Except.error EncErr.structError
  | fuel + 1, d :: rest =>
    match rle_encode ((d :: rest).take L) with
    | none => Except.error EncErr.structError
    | some (pc, lineData) =>
      match sbyte (((if 255 < pc then 0 else pc : Nat) : Nat) : Int) with
      | none => Except.error EncErr.structError
      | some c =>
        match byteRunBody L fuel ((d :: rest).drop L) with
        | Except.error e => Except.error e
        | Except.ok restOut => Except.ok (c :: lineData ++ restOut)

/-- `write_byte_run` (`fli_encode.py` lines 55-69).  The whole chunk is built
in a local buffer; `dest` receives bytes only through the final
`write_chunk_data` call, so on any error `dest` is returned unchanged.
`len(data) % 0` raises `ZeroDivisionError` in Python. -/
def write_byte_run (data : List Nat) (line_length : Nat) (dest : List Int) :
    List Int × Option EncErr :=
  if line_length = 0 then (dest, some EncErr.zeroDivision)
  else if data.length % line_length ≠ 0 then (dest, some EncErr.lineLengthMismatch)
  else
    match byteRunBody line_length data.length data with
    | Except.error e => (dest, some e)
    | Except.ok chunk => (dest ++ write_chunk_data BYTE_RUN chunk, none)

/-- `Color` (`fli_encode.py` lines 108-115). -/
structure Color where
  r : Nat
  g : Nat
  b : Nat
  deriving DecidableEq

/-- `bytes(color)`: `struct.pack "<BBB"`, failing on a channel above 255. -/
def colorBytes (c : Color) : Option (List Int) :=
  if c.r ≤ 255 ∧ c.g ≤ 255 ∧ c.b ≤ 255 then
    some [(c.r : Int), (c.g : Int), (c.b : Int)]
  else none

/-- Serialize a color list, failing on the first out-of-range channel. -/
def colorsToBytes : List Color → Option (List Int)
  | [] => some []
  | c :: rest =>
    match colorBytes c, colorsToBytes rest with
    | some b, some bs => some (b ++ bs)
    | _, _ => none

/-- `write_palette_packet` (`fli_encode.py` lines 118-123): fails on more than
256 colors, else writes `{skip, len % 256}` and the color bytes. -/
def write_palette_packet (colors : List Color) (skip : Nat) : Except EncErr (List Int) :=
  if 256 < colors.length then Except.error EncErr.tooManyColors
  else if 255 < skip then Except.error EncErr.structError
  else
    match colorsToBytes colors with
    | none => Except.error EncErr.structError
    | some cb => Except.ok ([(skip : Int), ((colors.length % 256 : Nat) : Int)] ++ cb)

/-- `write_palette` (`fli_encode.py` lines 126-133): pad with black to 256
entries, then one palette packet wrapped as a `COLOR_256` chunk.  (Python's
`[x] * (256 - len)` is empty when the list is longer than 256, exactly like
`List.replicate` under truncated subtraction.) -/
def write_palette (colors : List Color) : Except EncErr (List Int) :=
  match write_palette_packet (colors ++ List.replicate (256 - colors.length) ⟨0, 0, 0⟩) 0 with
  | Except.error e => Except.error e
  | Except.ok pkt => Except.ok (write_chunk_data COLOR_256 (u16le 1 ++ pkt))

/-- `write_frame_type` (`fli_encode.py` lines 94-100): a `FRAME_TYPE` chunk
whose payload is the 10-byte header (subchunk count, delay, reserved 0, width,
height) followed by the concatenated subchunks. -/
def write_frame_type (subchunks : List (List Int)) (delay width height : Nat) : List Int :=
  write_chunk_data FRAME_TYPE
    (u16le subchunks.length ++ u16le delay ++ u16le 0 ++ u16le width ++ u16le height
      ++ subchunks.flatten)

/-- `write_header` (`fli_encode.py` lines 136-160): the 128-byte file header
followed by every frame chunk.  `struct.pack` validates each field's range
(the guard), the four timestamp/creator fields are 0 and the two version
fields are 1; `x` format characters are zero padding. -/
def write_header (frames : List (List Int)) (width height delay : Nat)
    (dest : List Int) : Option (List Int) :=
  if (frames.map List.length).sum + 128 < 4294967296 ∧ frames.length < 65536 ∧
      width < 65536 ∧ height < 65536 ∧ delay < 4294967296 then
    some (dest ++ u32le ((frames.map List.length).sum + 128) ++ u16le 0xAF12
      ++ u16le frames.length ++ u16le width ++ u16le height ++ u16le 8 ++ u16le 0
      ++ u32le delay ++ List.replicate 2 0
      ++ u32le 0 ++ u32le 0 ++ u32le 0 ++ u32le 0 ++ u16le 1 ++ u16le 1
      ++ List.replicate 86 0 ++ frames.flatten)
  else none

/-- `FlicFile` state (`fli_encode.py` lines 163-171). -/
structure FlicFile where
  palette : List Color
  frames : List (List Int)
  next_palette : Option (List Color)
  width : Nat
  height : Nat
  delay : Nat
  deriving DecidableEq

/-- `FlicFile.__init__`. -/
def FlicFile.init (width height delay : Nat) : FlicFile :=
  ⟨[], [], none, width, height, delay⟩

/-- `FlicFile.set_palette` (`fli_encode.py` lines 173-174). -/
def FlicFile.set_palette (f : FlicFile) (colors : List Color) : FlicFile :=
  { f with next_palette := some colors }

/-- Python truthiness of `self._next_palette`: `None` and the empty list are
both falsy. -/
def truthy (o : Option (List Color)) : Bool :=
  match o with
  | none => false
  | some l => !l.isEmpty

/-- The tail of `add_frame` after the palette logic (`fli_encode.py` lines
190-192): build the byte-run subchunk (kept only if non-empty, per
`write_subchunk`), then compose and append the frame chunk. -/
def addFrameByteRun (f : FlicFile) (subs : List (List Int)) (img : List Nat) :
    FlicFile × Option EncErr :=
  match write_byte_run img f.width [] with
  | (_, some e) => (f, some e)
  | (br, none) =>
    ({ f with
        frames := f.frames
          ++ [write_frame_type (subs ++ if br.isEmpty then [] else [br]) 0 0 0] },
      none)

/-- `FlicFile.add_frame` (`fli_encode.py` lines 176-193).  On an exception the
returned state reflects the mutations already performed (the palette promotion
at lines 186-187 happens before the subchunk writes). -/
def FlicFile.add_frame (f : FlicFile) (image : Option (List Nat)) :
    FlicFile × Option EncErr :=
  match image with
  | none => ({ f with frames := f.frames ++ [write_frame_type [] 0 0 0] }, none)
  | some img =>
    if f.palette.isEmpty || truthy f.next_palette then
      if !truthy f.next_palette then (f, some EncErr.paletteNotSet)
      else
        match write_palette (f.next_palette.getD []) with
        | Except.error e =>
          ({ f with palette := f.next_palette.getD [], next_palette := none }, some e)
        | Except.ok palChunk =>
          addFrameByteRun
            { f with palette := f.next_palette.getD [], next_palette := none }
            (if palChunk.isEmpty then [] else [palChunk]) img
    else addFrameByteRun f [] img

/-- `FlicFile.write` (`fli_encode.py` lines 195-196). -/
def FlicFile.write (f : FlicFile) (dest : List Int) : Option (List Int) :=
  write_header f.frames f.width f.height f.delay dest

/-! ### Helper lemmas about the packs and the decoder -/

theorem sbyte_some {x c : Int} (h : sbyte x = some c) : c = x := by
  unfold sbyte at h
  split at h
  · exact (Option.some.inj h).symm
  · cases h

theorem packbB_some {c : Int} {b : Nat} {p : List Int} (h : packbB c b = some p) :
    p = [c, (b : Int)] := by
  unfold packbB at h
  split at h
  · exact (Option.some.inj h).symm
  · cases h

theorem rleDecodeF_nil (fuel : Nat) : rleDecodeF fuel [] = [] := by
  cases fuel <;> rfl

theorem rleDecode_nil : rleDecode [] = [] := rfl

theorem rleDecodeF_congr : ∀ (fuel1 fuel2 : Nat) (l : List Int),
    l.length ≤ fuel1 → l.length ≤ fuel2 → rleDecodeF fuel1 l = rleDecodeF fuel2 l := by
  intro fuel1
  induction fuel1 with
  | zero =>
    intro fuel2 l h1 _
    have hl : l = [] := List.eq_nil_of_length_eq_zero (Nat.le_zero.mp h1)
    subst hl
    rw [rleDecodeF_nil, rleDecodeF_nil]
  | succ f ih =>
    intro fuel2 l h1 h2
    cases l with
    | nil => rw [rleDecodeF_nil, rleDecodeF_nil]
    | cons c rest =>
      cases fuel2 with
      | zero => simp at h2
      | succ f2 =>
        simp only [List.length_cons] at h1 h2
        simp only [rleDecodeF]
        by_cases hc : c < 0
        · rw [if_pos hc, if_pos hc]
          have hd : (rest.drop (-c).toNat).length = rest.length - (-c).toNat :=
            List.length_drop _ _
          congr 1
          exact ih f2 _ (by omega) (by omega)
        · rw [if_neg hc, if_neg hc]
          cases rest with
          | nil => rfl
          | cons b rest2 =>
            simp only [List.length_cons] at h1 h2
            show List.replicate c.toNat b.toNat ++ rleDecodeF f rest2
              = List.replicate c.toNat b.toNat ++ rleDecodeF f2 rest2
            congr 1
            exact ih f2 rest2 (by omega) (by omega)

theorem rleDecode_neg (k : Nat) (lit rest : List Int) (hlen : lit.length = k)
    (hk : 1 ≤ k) :
    rleDecode ((-(k : Int)) :: (lit ++ rest)) = lit.map Int.toNat ++ rleDecode rest := by
  have hneg : (-(k : Int)) < 0 := by omega
  have htn : (-(-(k : Int))).toNat = k := by omega
  show rleDecodeF ((lit ++ rest).length + 1) ((-(k : Int)) :: (lit ++ rest)) = _
  simp only [rleDecodeF, if_pos hneg, htn]
  rw [List.take_left' hlen, List.drop_left' hlen]
  congr 1
  rw [rleDecode]
  exact rleDecodeF_congr _ _ rest (by simp [List.length_append]) (le_refl _)

theorem rleDecode_pos (k b : Nat) (rest : List Int) :
    rleDecode ((k : Int) :: (b : Int) :: rest) = List.replicate k b ++ rleDecode rest := by
  have hge : ¬((k : Int) < 0) := by omega
  show rleDecodeF (((b : Int) :: rest).length + 1) ((k : Int) :: (b : Int) :: rest) = _
  simp only [rleDecodeF, if_neg hge, Int.toNat_natCast]
  congr 1
  rw [rleDecode]
  exact rleDecodeF_congr _ _ rest (by simp) (le_refl _)

theorem take_add' (data : List Nat) (a c : Nat) :
    data.take a ++ (data.drop a).take c = data.take (a + c) :=
  (List.take_add data a c).symm

theorem run_replicate (data : List Nat) (a c : Nat) (hc : a + c ≤ data.length)
    (hrun : ∀ i, a ≤ i → i < a + c → data.getD i 0 = data.getD a 0) :
    (data.drop a).take c = List.replicate c (data.getD a 0) := by
  rw [List.eq_replicate_iff]
  constructor
  · rw [List.length_take, List.length_drop]; omega
  · intro x hx
    rw [List.mem_iff_getElem] at hx
    obtain ⟨i, hi, hx⟩ := hx
    have hi2 := hi
    rw [List.length_take, List.length_drop] at hi2
    have hia : a + i < data.length := by omega
    rw [← hx, List.getElem_take, List.getElem_drop]
    rw [← List.getD_eq_getElem data 0 hia]
    exact hrun (a + i) (by omega) (by omega)

theorem run_take (data : List Nat) (a c : Nat) (hc : a + c ≤ data.length)
    (hrun : ∀ i, a ≤ i → i < a + c → data.getD i 0 = data.getD a 0) :
    data.take a ++ List.replicate c (data.getD a 0) = data.take (a + c) := by
  rw [← run_replicate data a c hc hrun, take_add']

theorem byteSlice_toNat (data : List Nat) (i j : Nat) :
    (byteSlice data i j).map Int.toNat = (data.drop i).take (j - i) := by
  unfold byteSlice
  rw [List.map_map]
  have hcomp : (Int.toNat ∘ fun b : Nat => (b : Int)) = id := by
    funext b
    simp
  rw [hcomp, List.map_id]

theorem byteSlice_length (data : List Nat) (i j : Nat) (hj : j ≤ data.length) :
    (byteSlice data i j).length = j - i := by
  unfold byteSlice
  rw [List.length_map, List.length_take, List.length_drop]
  omega

/-- Closing the literal or repeat run still open at end of buffer preserves the
decode invariant: if `out` decodes (before any continuation) to the first
`last_n` bytes, the flushed stream decodes to all of `data`. -/
theorem rleFlush_decode (data : List Nat) (last_n : Nat) (different : Bool)
    (pc pc' : Nat) (out out' : List Int)
    (hlast : last_n < data.length)
    (hout : ∀ rest, rleDecode (out ++ rest) = data.take last_n ++ rleDecode rest)
    (hrun : different = false → ∀ i, last_n ≤ i → i < data.length →
      data.getD i 0 = data.getD last_n 0)
    (h : rleFlush data last_n different pc out = some (pc', out')) :
    rleDecode out' = data := by
  unfold rleFlush at h
  cases different with
  | true =>
    rw [if_pos rfl] at h
    rcases hsb : sbyte (-((data.length - last_n : Nat) : Int)) with _ | c
    · rw [hsb] at h; cases h
    · rw [hsb] at h
      have hc := sbyte_some hsb
      subst hc
      simp only [Option.some.injEq, Prod.mk.injEq] at h
      obtain ⟨_, h2⟩ := h
      subst h2
      rw [hout]
      rw [show byteSlice data last_n data.length
            = byteSlice data last_n data.length ++ [] from (List.append_nil _).symm]
      rw [rleDecode_neg (data.length - last_n) _ []
            (byteSlice_length data last_n data.length (le_refl _)) (by omega)]
      rw [byteSlice_toNat, rleDecode_nil, List.append_nil]
      have hwhole : (data.drop last_n).take (data.length - last_n) = data.drop last_n := by
        rw [← List.length_drop]
        exact List.take_length _
      rw [hwhole, List.take_append_drop]
  | false =>
    rw [if_neg (by simp)] at h
    rcases hp : packbB ((data.length - last_n : Nat) : Int)
        (data.getD (data.length - 1) 0) with _ | p
    · rw [hp] at h; cases h
    · rw [hp] at h
      have hpv := packbB_some hp
      subst hpv
      simp only [Option.some.injEq, Prod.mk.injEq] at h
      obtain ⟨_, h2⟩ := h
      subst h2
      rw [hout]
      rw [rleDecode_pos, rleDecode_nil, List.append_nil]
      have hb : data.getD (data.length - 1) 0 = data.getD last_n 0 :=
        hrun rfl (data.length - 1) (by omega) (by omega)
      rw [hb]
      rw [run_take data last_n (data.length - last_n) (by omega)
            (fun i h1 h2 => hrun rfl i h1 (by omega))]
      rw [show last_n + (data.length - last_n) = data.length from by omega,
          List.take_length]

/-- The scan loop of `rle_encode` preserves the decode invariant: if `out`
decodes (before any continuation) to the first `last_n` bytes and, inside a
repeat run, `data[last_n..n)` is constant, then any successful completion of
the loop decodes to the whole buffer. -/
theorem rleLoop_decode (data : List Nat) :
    ∀ (fuel n last_n : Nat) (different : Bool) (pc pc' : Nat) (out out' : List Int),
    data.length ≤ fuel + n →
    1 ≤ n → n ≤ data.length → last_n < n →
    (∀ rest, rleDecode (out ++ rest) = data.take last_n ++ rleDecode rest) →
    (different = false → ∀ i, last_n ≤ i → i < n → data.getD i 0 = data.getD last_n 0) →
    rleLoop data fuel n last_n different pc out = some (pc', out') →
    rleDecode out' = data := by
  intro fuel
  induction fuel with
  | zero =>
    intro n last_n different pc pc' out out' hfuel h1 hn hlast hout hrun h
    have hnl : n = data.length := by omega
    subst hnl
    exact rleFlush_decode data last_n different pc pc' out out' (by omega) hout hrun h
  | succ fuel ih =>
    intro n last_n different pc pc' out out' hfuel h1 hn hlast hout hrun h
    simp only [rleLoop] at h
    by_cases hlt : n < data.length
    · rw [if_pos hlt] at h
      by_cases hb : data.getD n 0 = data.getD (n - 1) 0
      · rw [if_pos hb] at h
        cases different with
        | true =>
          rw [if_pos rfl] at h
          by_cases hl : last_n < n - 1
          · rw [if_pos hl] at h
            rcases hsb : sbyte (-((n - 1 - last_n : Nat) : Int)) with _ | c
            · rw [hsb] at h; cases h
            · rw [hsb] at h
              have hc := sbyte_some hsb
              subst hc
              apply ih (n + 1) (n - 1) false (pc + 1) pc'
                  (out ++ (-((n - 1 - last_n : Nat) : Int))
                    :: byteSlice data last_n (n - 1)) out'
                  (by omega) (by omega) (by omega) (by omega) ?_ ?_ h
              · intro rest
                rw [List.append_assoc, List.cons_append, hout]
                rw [rleDecode_neg (n - 1 - last_n) _ rest
                      (byteSlice_length data last_n (n - 1) (by omega)) (by omega)]
                rw [byteSlice_toNat, ← List.append_assoc, take_add']
                rw [show last_n + (n - 1 - last_n) = n - 1 from by omega]
              · intro _ i hi1 hi2
                have hcase : i = n - 1 ∨ i = n := by omega
                rcases hcase with rfl | rfl
                · rfl
                · exact hb
          · rw [if_neg hl] at h
            have hln : last_n = n - 1 := by omega
            subst hln
            apply ih (n + 1) (n - 1) false pc pc' out out'
                (by omega) (by omega) (by omega) (by omega) hout ?_ h
            · intro _ i hi1 hi2
              have hcase : i = n - 1 ∨ i = n := by omega
              rcases hcase with rfl | rfl
              · rfl
              · exact hb
        | false =>
          rw [if_neg (by simp)] at h
          apply ih (n + 1) last_n false pc pc' out out'
              (by omega) (by omega) (by omega) (by omega) hout ?_ h
          · intro _ i hi1 hi2
            by_cases hin : i < n
            · exact hrun rfl i hi1 hin
            · have hieq : i = n := by omega
              subst hieq
              rw [hb]
              exact hrun rfl (i - 1) (by omega) (by omega)
      · rw [if_neg hb] at h
        cases different with
        | true =>
          rw [if_pos rfl] at h
          exact ih (n + 1) last_n true pc pc' out out'
            (by omega) (by omega) (by omega) (by omega) hout
            (fun habs => Bool.noConfusion habs) h
        | false =>
          rw [if_neg (by simp)] at h
          rcases hp : packbB ((n - last_n : Nat) : Int) (data.getD (n - 1) 0) with _ | p
          · rw [hp] at h; cases h
          · rw [hp] at h
            have hpv := packbB_some hp
            subst hpv
            apply ih (n + 1) n true (pc + 1) pc'
                (out ++ [((n - last_n : Nat) : Int), ((data.getD (n - 1) 0 : Nat) : Int)])
                out' (by omega) (by omega) (by omega) (by omega) ?_
                (fun habs => Bool.noConfusion habs) h
            · intro rest
              rw [List.append_assoc]
              simp only [List.cons_append, List.nil_append]
              rw [hout, rleDecode_pos]
              rw [show data.getD (n - 1) 0 = data.getD last_n 0 from
                    hrun rfl (n - 1) (by omega) (by omega)]
              rw [← List.append_assoc]
              rw [run_take data last_n (n - last_n) (by omega)
                    (fun i hi1 hi2 => hrun rfl i hi1 (by omega))]
              rw [show last_n + (n - last_n) = n from by omega]
    · rw [if_neg hlt] at h
      have hnl : n = data.length := by omega
      subst hnl
      exact rleFlush_decode data last_n different pc pc' out out' (by omega) hout hrun h

/-- Claim C1 (amended): whenever `rle_encode` succeeds on a buffer, expanding
its packets in order (a literal packet with signed count `-k` contributes its
`k` raw bytes; a repeat packet with count `+k` contributes `k` copies of its
byte) reconstructs the buffer exactly, and the decoded length equals the
buffer length. -/
theorem rle_roundtrip (data : List Nat) (pc : Nat) (out : List Int)
    (h : rle_encode data = some (pc, out)) :
    rleDecode out = data ∧ (rleDecode out).length = data.length := by
  unfold rle_encode at h
  by_cases he : data.isEmpty
  · rw [if_pos he] at h
    simp only [Option.some.injEq, Prod.mk.injEq] at h
    obtain ⟨_, h2⟩ := h
    subst h2
    have hd : data = [] := by
      cases data
      · rfl
      · simp at he
    subst hd
    exact ⟨rfl, rfl⟩
  · rw [if_neg he] at h
    have hlen : 1 ≤ data.length := by
      cases data
      · simp at he
      · simp
    have hmain := rleLoop_decode data data.length 1 0 true 0 pc [] out
      (by omega) (le_refl 1) hlen (by omega)
      (fun rest => by rw [List.nil_append, List.take_zero, List.nil_append])
      (fun habs => Bool.noConfusion habs) h
    exact ⟨hmain, by rw [hmain]⟩

/-- Witness for `rle_roundtrip` at the concrete buffer `[3, 3, 1, 2]`, whose
encoding is the repeat packet `{+2, 3}` followed by the literal packet
`{-2, 1, 2}`. -/
theorem rle_roundtrip_witness :
    rleDecode [2, 3, -2, 1, 2] = [3, 3, 1, 2] ∧
      (rleDecode [2, 3, -2, 1, 2]).length = ([3, 3, 1, 2] : List Nat).length :=
  rle_roundtrip [3, 3, 1, 2] 2 [2, 3, -2, 1, 2] (by decide)

/-- Claim C1 counterexample: on the 128-byte repeat run `rle_encode` raises
`struct.error` (the final repeat count 128 does not fit `struct.pack "<b"`)
after writing no packet at all, so no output of the encoder reconstructs this
(non-empty) buffer. -/
theorem rle_roundtrip_cex :
    rle_encode (List.replicate 128 0) = none ∧
      List.replicate 128 0 ≠ ([] : List Nat) := by
  constructor
  · decide
  · decide

/-- Claim C2: `rle_encode` evaluated at a 200-byte repeat run.  The code has
no 127-byte cap: it reaches the flush with the whole run open and passes
count 200 to `struct.pack "<bB"`, which raises — the run is never split into
packets of magnitude at most 127. -/
theorem rle_no_cap : rle_encode (List.replicate 200 5) = none := by decide

/-- Claim C6: a single-byte input yields exactly one literal packet of length
1, the two bytes `{-1, b}`; the empty input yields 0 packets and no bytes. -/
theorem rle_single_and_empty (b : Nat) :
    rle_encode [b] = some (1, [-1, (b : Int)]) ∧ rle_encode [] = some (0, []) := by
  constructor
  · show rleFlush [b] 0 true 0 [] = some (1, [-1, (b : Int)])
    unfold rleFlush
    rw [if_pos rfl]
    show (match sbyte (-((1 : Nat) : Int)) with
      | none => none
      | some c => some (0 + 1, [] ++ c :: byteSlice [b] 0 [b].length)) = _
    rw [show sbyte (-((1 : Nat) : Int)) = some (-1) from by decide]
    show some (1, [-1, (b : Int)]) = _
    rfl
  · decide

/-- Flushing a repeat run that covers a whole constant buffer of length
`1 ≤ n ≤ 127` emits the single repeat packet `{+n, b}`. -/
theorem rleFlush_const (b n : Nat) (hb : b ≤ 255) (h1 : 1 ≤ n) (hn : n ≤ 127) :
    rleFlush (List.replicate n b) 0 false 0 [] = some (1, [(n : Int), (b : Int)]) := by
  unfold rleFlush
  rw [if_neg (by simp)]
  have hlen : (List.replicate n b).length = n := List.length_replicate n b
  have hgd : (List.replicate n b).getD ((List.replicate n b).length - 1) 0 = b := by
    rw [List.getD_eq_getElem _ 0 (by omega), List.getElem_replicate]
  rw [hgd, hlen, Nat.sub_zero]
  rw [show packbB ((n : Nat) : Int) b = some [(n : Int), (b : Int)] from by
    unfold packbB
    rw [if_pos ⟨by omega, by omega, hb⟩]]
  rfl

/-- On a constant buffer, once the loop has entered the repeat run (state
`last_n = 0`, `different = false`, nothing written), it stays there and
flushes to the single repeat packet. -/
theorem rleLoop_const (b L : Nat) (hb : b ≤ 255) (hL : L ≤ 127) :
    ∀ (fuel n : Nat), 2 ≤ n → n ≤ L → L ≤ fuel + n →
    rleLoop (List.replicate L b) fuel n 0 false 0 [] = some (1, [(L : Int), (b : Int)]) := by
  intro fuel
  induction fuel with
  | zero =>
    intro n h2 hnL hfuel
    have hn : n = L := by omega
    subst hn
    show rleFlush (List.replicate n b) 0 false 0 [] = _
    exact rleFlush_const b n hb (by omega) (by omega)
  | succ fuel ih =>
    intro n h2 hnL hfuel
    simp only [rleLoop]
    by_cases hlt : n < L
    · rw [if_pos (by rw [List.length_replicate]; omega)]
      rw [if_pos (by
        rw [List.getD_eq_getElem _ 0 (by rw [List.length_replicate]; omega),
            List.getD_eq_getElem _ 0 (by rw [List.length_replicate]; omega),
            List.getElem_replicate, List.getElem_replicate])]
      rw [if_neg (by simp)]
      exact ih (n + 1) (by omega) (by omega) (by omega)
    · rw [if_neg (by rw [List.length_replicate]; omega)]
      have hn : n = L := by omega
      subst hn
      exact rleFlush_const b n hb (by omega) (by omega)

/-- Claim C5 (amended): for every byte value `b` and every length
`2 ≤ L ≤ 127`, `rle_encode` on `L` copies of `b` returns packet count 1 and
writes exactly one repeat packet, the two bytes `{+L, b}`.  (At `L = 1` the
encoder instead emits the literal packet `{-1, b}`, see the counterexample.) -/
theorem rle_repeat_run (b L : Nat) (hb : b ≤ 255) (h2 : 2 ≤ L) (hL : L ≤ 127) :
    rle_encode (List.replicate L b) = some (1, [(L : Int), (b : Int)]) := by
  unfold rle_encode
  rw [if_neg (by
    simp only [List.isEmpty_iff, List.replicate_eq_nil_iff]
    omega)]
  rw [List.length_replicate]
  obtain ⟨L2, rfl⟩ : ∃ L2, L = L2 + 2 := ⟨L - 2, by omega⟩
  simp only [rleLoop]
  rw [if_pos (by rw [List.length_replicate]; omega)]
  rw [if_pos (by
    rw [List.getD_eq_getElem _ 0 (by rw [List.length_replicate]; omega),
        List.getD_eq_getElem _ 0 (by rw [List.length_replicate]; omega),
        List.getElem_replicate, List.getElem_replicate])]
  rw [if_pos trivial]
  rw [if_neg (by omega)]
  exact rleLoop_const b (L2 + 2) hb hL (L2 + 1) 2 (by omega) (by omega) (by omega)

/-- Witness for `rle_repeat_run`: three copies of byte 7 encode to the single
repeat packet `{+3, 7}`. -/
theorem rle_repeat_run_witness :
    rle_encode (List.replicate 3 7) = some (1, [3, 7]) :=
  rle_repeat_run 7 3 (by decide) (by decide) (by decide)

/-- Claim C5 counterexample: at `L = 1` the encoder emits the literal packet
`{-1, b}`, not the repeat packet `{+1, b}` the claim requires for `L = 1`. -/
theorem rle_repeat_run_cex :
    rle_encode (List.replicate 1 0) = some (1, [-1, 0]) ∧
      rle_encode (List.replicate 1 0) ≠ some (1, [1, 0]) := by
  constructor
  · decide
  · decide

/-- Every error `byteRunBody` itself produces is a `struct.error` (from
`rle_encode` or from packing the per-line packet count). -/
theorem byteRunBody_error (L : Nat) :
    ∀ (fuel : Nat) (data : List Nat) (e : EncErr),
    byteRunBody L fuel data = Except.error e → e = EncErr.structError := by
  intro fuel
  induction fuel with
  | zero =>
    intro data e h
    cases data with
    | nil => exact Except.noConfusion h
    | cons d rest =>
      injection h with h2
      exact h2.symm
  | succ fuel ih =>
    intro data e h
    cases data with
    | nil => exact Except.noConfusion h
    | cons d rest =>
      simp only [byteRunBody] at h
      split at h
      · injection h with h2; exact h2.symm
      · split at h
        · injection h with h2; exact h2.symm
        · split at h
          · rename_i e2 heq
            injection h with h2
            rw [← h2]
            exact ih _ e2 heq
          · exact Except.noConfusion h

/-- Claim C7: `write_byte_run` raises the size-mismatch error exactly when the
buffer length is not a multiple of the line length, and any raise leaves the
destination untouched (the chunk is built in a local buffer and written to
`dest` only on success). -/
theorem write_byte_run_mismatch (data : List Nat) (L : Nat) (dest : List Int)
    (hL : 0 < L) :
    ((write_byte_run data L dest).2 = some EncErr.lineLengthMismatch ↔
      data.length % L ≠ 0) ∧
    (∀ e, (write_byte_run data L dest).2 = some e →
      (write_byte_run data L dest).1 = dest) := by
  unfold write_byte_run
  rw [if_neg (by omega)]
  by_cases hm : data.length % L = 0
  · rw [if_neg (not_not_intro hm)]
    rcases hbody : byteRunBody L data.length data with e | chunk
    · have he := byteRunBody_error L data.length data e hbody
      subst he
      constructor
      · constructor
        · intro hmm
          injection hmm with hmm2
          exact absurd hmm2 (by decide)
        · intro hne
          exact absurd hm hne
      · intro e2 _
        rfl
    · constructor
      · constructor
        · intro hmm
          exact Option.noConfusion hmm
        · intro hne
          exact absurd hm hne
      · intro e2 he2
        exact Option.noConfusion he2
  · rw [if_pos hm]
    exact ⟨⟨fun _ => hm, fun _ => rfl⟩, fun e _ => rfl⟩

/-- Witness for `write_byte_run_mismatch`: a 3-byte buffer with line length 2. -/
theorem write_byte_run_mismatch_witness :
    ((write_byte_run [1, 2, 3] 2 []).2 = some EncErr.lineLengthMismatch ↔
      ([1, 2, 3] : List Nat).length % 2 ≠ 0) ∧
    (∀ e, (write_byte_run [1, 2, 3] 2 []).2 = some e →
      (write_byte_run [1, 2, 3] 2 []).1 = []) :=
  write_byte_run_mismatch [1, 2, 3] 2 [] (by decide)

/-- `byteRunBody` consumes no line from an empty buffer. -/
theorem byteRunBody_nil (L fuel : Nat) : byteRunBody L fuel [] = Except.ok [] := by
  cases fuel <;> rfl

/-- `byteRunBody` on a buffer that is exactly one scanline: the result is the
packet-count prefix (clamped to 0 above 255, packed as a signed byte) followed
by the packed line. -/
theorem byteRunBody_single (data : List Nat) (pc : Nat) (out : List Int)
    (hne : data ≠ []) (henc : rle_encode data = some (pc, out)) :
    byteRunBody data.length data.length data
      = match sbyte (((if 255 < pc then 0 else pc : Nat) : Nat) : Int) with
        | none => Except.error EncErr.structError
        | some c => Except.ok (c :: out) := by
  obtain ⟨d, rest, rfl⟩ : ∃ d rest, data = d :: rest := by
    cases data
    · exact absurd rfl hne
    · exact ⟨_, _, rfl⟩
  rw [List.length_cons]
  simp only [byteRunBody]
  have ht : (d :: rest).take (rest.length + 1) = d :: rest := by
    rw [show rest.length + 1 = (d :: rest).length from rfl]
    exact List.take_length _
  have hdr : (d :: rest).drop (rest.length + 1) = [] := by
    rw [show rest.length + 1 = (d :: rest).length from rfl]
    exact List.drop_length _
  rw [ht, hdr, henc]
  show (match sbyte (((if 255 < pc then 0 else pc : Nat) : Nat) : Int) with
        | none => Except.error EncErr.structError
        | some c =>
          match byteRunBody (rest.length + 1) rest.length [] with
          | Except.error e => Except.error e
          | Except.ok restOut => Except.ok (c :: out ++ restOut))
      = match sbyte (((if 255 < pc then 0 else pc : Nat) : Nat) : Int) with
        | none => Except.error EncErr.structError
        | some c => Except.ok (c :: out)
  rcases hsb : sbyte (((if 255 < pc then 0 else pc : Nat) : Nat) : Int) with _ | c
  · rfl
  · rw [byteRunBody_nil]
    show Except.ok (c :: out ++ []) = Except.ok (c :: out)
    rw [List.append_nil]

/-- Claim C3 (amended): for a scanline, the one-byte prefix equals the rle
packet count when the count is at most 127 (and the write succeeds), equals 0
when the count exceeds 255 (and the write succeeds), but for counts between
128 and 255 the signed prefix pack overflows and `write_byte_run` fails with
`struct.error` instead of writing the count. -/
theorem byte_run_count_clamp (data : List Nat) (pc : Nat) (out : List Int)
    (hne : data ≠ []) (henc : rle_encode data = some (pc, out)) :
    (pc ≤ 127 → byteRunBody data.length data.length data
        = Except.ok (((pc : Nat) : Int) :: out)) ∧
    (128 ≤ pc → pc ≤ 255 →
      byteRunBody data.length data.length data = Except.error EncErr.structError ∧
      (write_byte_run data data.length []).2 = some EncErr.structError) ∧
    (255 < pc → byteRunBody data.length data.length data
        = Except.ok ((0 : Int) :: out)) := by
  have hsingle := byteRunBody_single data pc out hne henc
  refine ⟨?_, ?_, ?_⟩
  · intro h127
    rw [hsingle]
    rw [show sbyte (((if 255 < pc then 0 else pc : Nat) : Nat) : Int)
          = some ((pc : Nat) : Int) from by
      rw [if_neg (by omega)]
      unfold sbyte
      rw [if_pos ⟨by omega, by omega⟩]]
  · intro h128 h255
    have hb : byteRunBody data.length data.length data
        = Except.error EncErr.structError := by
      rw [hsingle]
      rw [show sbyte (((if 255 < pc then 0 else pc : Nat) : Nat) : Int) = none from by
        rw [if_neg (by omega)]
        unfold sbyte
        rw [if_neg (by omega)]]
    refine ⟨hb, ?_⟩
    unfold write_byte_run
    rw [if_neg (fun h => hne (List.eq_nil_of_length_eq_zero h))]
    rw [if_neg (not_not_intro (Nat.mod_self _))]
    rw [hb]
  · intro h255
    rw [hsingle]
    rw [show sbyte (((if 255 < pc then 0 else pc : Nat) : Nat) : Int)
          = some ((0 : Nat) : Int) from by
      rw [if_pos h255]
      decide]
    rfl

/-- Witness for `byte_run_count_clamp`: the one-byte line `[7]` has packet
count 1, and its per-line prefix is the count itself. -/
theorem byte_run_count_clamp_witness :
    ((1 : Nat) ≤ 127 → byteRunBody ([7] : List Nat).length ([7] : List Nat).length [7]
        = Except.ok (((1 : Nat) : Int) :: [-1, 7])) ∧
    (128 ≤ (1 : Nat) → (1 : Nat) ≤ 255 →
      byteRunBody ([7] : List Nat).length ([7] : List Nat).length [7]
          = Except.error EncErr.structError ∧
      (write_byte_run [7] ([7] : List Nat).length []).2 = some EncErr.structError) ∧
    (255 < (1 : Nat) → byteRunBody ([7] : List Nat).length ([7] : List Nat).length [7]
        = Except.ok ((0 : Int) :: [-1, 7])) :=
  byte_run_count_clamp [7] 1 [-1, 7] (by decide) (by decide)

/-- A concrete 256-byte scanline made of 128 two-byte repeat runs
(`0,0,1,1,...,127,127`): its packet count is 128. -/
def cLine : List Nat := (List.range 128).flatMap (fun i => [i, i])

/-- Claim C3 counterexample: on the scanline `cLine` the packet count is 128,
which is at most 255, yet `write_byte_run` does not record it and succeed —
packing 128 with `struct.pack "<b"` raises, so the call fails. -/
theorem byte_run_count_clamp_cex :
    (rle_encode cLine).map Prod.fst = some 128 ∧
      (write_byte_run cLine 256 []).2 = some EncErr.structError := by
  constructor
  · decide
  · decide

/-- Claim C10: staging an empty palette is indistinguishable from staging
none — with no active palette, `set_palette []` followed by `add_frame` with
real pixel data raises `PaletteNotSet` (Python's truthiness makes the staged
empty list falsy), leaving the state as `set_palette` left it. -/
theorem empty_palette_not_set (f : FlicFile) (img : List Nat)
    (hpal : f.palette = []) :
    FlicFile.add_frame (FlicFile.set_palette f []) (some img)
      = (FlicFile.set_palette f [], some EncErr.paletteNotSet) := by
  simp [FlicFile.add_frame, FlicFile.set_palette, truthy, hpal]

/-- Witness for `empty_palette_not_set` on a fresh 1x1 file. -/
theorem empty_palette_not_set_witness :
    FlicFile.add_frame (FlicFile.set_palette (FlicFile.init 1 1 1) []) (some [0])
      = (FlicFile.set_palette (FlicFile.init 1 1 1) [], some EncErr.paletteNotSet) :=
  empty_palette_not_set (FlicFile.init 1 1 1) [0] rfl

/-- A successful `addFrameByteRun` appends exactly one frame chunk, composed
with delay = width = height = 0. -/
theorem addFrameByteRun_frames (f : FlicFile) (subs : List (List Int))
    (img : List Nat) (f' : FlicFile)
    (h : addFrameByteRun f subs img = (f', none)) :
    ∃ subs2, f'.frames = f.frames ++ [write_frame_type subs2 0 0 0] := by
  unfold addFrameByteRun at h
  rcases hbr : write_byte_run img f.width [] with ⟨br, err⟩
  rw [hbr] at h
  cases err with
  | some e =>
    injection h with _ h2
    exact Option.noConfusion h2
  | none =>
    injection h with h1 _
    refine ⟨subs ++ if br.isEmpty then [] else [br], ?_⟩
    rw [← h1]

/-- Claim C9 (implicit): every frame chunk appended by `add_frame` — for a
no-op frame or for real pixel data — is composed by `write_frame_type` with
delay = 0, width = 0 and height = 0, whatever width, height and delay the
`FlicFile` was constructed with: bytes 8..15 of the chunk (the delay,
reserved, width and height fields of its 10-byte frame header) are all zero.
The configured delay reaches the output only through `write_header`. -/
theorem frame_header_zero_fields (f : FlicFile) (image : Option (List Nat))
    (f' : FlicFile) (h : FlicFile.add_frame f image = (f', none)) :
    ∃ subs, f'.frames = f.frames ++ [write_frame_type subs 0 0 0] ∧
      ((write_frame_type subs 0 0 0).drop 8).take 8 = List.replicate 8 0 := by
  have hzero : ∀ subs : List (List Int),
      ((write_frame_type subs 0 0 0).drop 8).take 8 = List.replicate 8 (0 : Int) := by
    intro subs
    rfl
  cases image with
  | none =>
    simp only [FlicFile.add_frame] at h
    injection h with h1 _
    exact ⟨[], by rw [← h1], hzero []⟩
  | some img =>
    simp only [FlicFile.add_frame] at h
    by_cases hcond : (f.palette.isEmpty || truthy f.next_palette) = true
    · rw [if_pos hcond] at h
      by_cases hnt : (!truthy f.next_palette) = true
      · rw [if_pos hnt] at h
        injection h with _ h2
        exact Option.noConfusion h2
      · rw [if_neg hnt] at h
        rcases hwp : write_palette (f.next_palette.getD []) with e | palChunk
        · rw [hwp] at h
          injection h with _ h2
          exact Option.noConfusion h2
        · rw [hwp] at h
          obtain ⟨subs, hsubs⟩ := addFrameByteRun_frames _ _ _ _ h
          exact ⟨subs, hsubs, hzero subs⟩
    · rw [if_neg hcond] at h
      obtain ⟨subs, hsubs⟩ := addFrameByteRun_frames _ _ _ _ h
      exact ⟨subs, hsubs, hzero subs⟩

/-- Witness for `frame_header_zero_fields`: a no-op frame on a 2x2 file with
delay 500. -/
theorem frame_header_zero_fields_witness :
    ∃ subs, (⟨[], [write_frame_type [] 0 0 0], none, 2, 2, 500⟩ : FlicFile).frames
        = (FlicFile.init 2 2 500).frames ++ [write_frame_type subs 0 0 0] ∧
      ((write_frame_type subs 0 0 0).drop 8).take 8 = List.replicate 8 0 :=
  frame_header_zero_fields (FlicFile.init 2 2 500) none
    ⟨[], [write_frame_type [] 0 0 0], none, 2, 2, 500⟩ (by decide)

/-- A chunk always contains at least its 6-byte header. -/
theorem write_chunk_data_ne_nil (ty : Nat) (data : List Int) :
    write_chunk_data ty data ≠ [] := by
  simp [write_chunk_data, u32le]

/-- A palette chunk the builder returns is never empty. -/
theorem write_palette_ne_nil (colors : List Color) (pal : List Int)
    (h : write_palette colors = Except.ok pal) : pal ≠ [] := by
  unfold write_palette at h
  split at h
  · exact Except.noConfusion h
  · injection h with h1
    rw [← h1]
    exact write_chunk_data_ne_nil _ _

/-- A byte-run chunk written by a successful `write_byte_run` is never empty. -/
theorem write_byte_run_ok_ne_nil (img : List Nat) (L : Nat) (br : List Int)
    (h : write_byte_run img L [] = (br, none)) : br ≠ [] := by
  unfold write_byte_run at h
  split at h
  · injection h with _ h2; exact Option.noConfusion h2
  · split at h
    · injection h with _ h2; exact Option.noConfusion h2
    · split at h
      · injection h with _ h2; exact Option.noConfusion h2
      · injection h with h1 _
        rw [← h1, List.nil_append]
        exact write_chunk_data_ne_nil _ _

/-- Whether an `Except` result is a success (used to state preconditions that
a concrete witness can evaluate). -/
def exOk {ε α : Type} (e : Except ε α) : Bool :=
  match e with
  | Except.ok _ => true
  | Except.error _ => false

/-- Claim C4: the palette state machine of `FlicFile`.  With no active and no
staged palette, `add_frame` with real pixel data raises `PaletteNotSet` and
changes nothing.  After `set_palette colors` (a non-empty list), the next
`add_frame` with real pixel data promotes the staged palette to active and
appends a frame chunk whose subchunk list starts with the palette subchunk;
the following `add_frame` (nothing newly staged) appends a frame chunk whose
subchunk list holds only the byte-run subchunk. -/
theorem add_frame_palette_machine (f : FlicFile) (colors : List Color)
    (img img2 : List Nat)
    (hpal : f.palette = []) (hnext : f.next_palette = none)
    (hc : colors ≠ [])
    (hwp : exOk (write_palette colors) = true)
    (hbr : (write_byte_run img f.width []).2 = none)
    (hbr2 : (write_byte_run img2 f.width []).2 = none) :
    FlicFile.add_frame f (some img) = (f, some EncErr.paletteNotSet) ∧
    ∃ pal br br2,
      write_palette colors = Except.ok pal ∧
      write_byte_run img f.width [] = (br, none) ∧
      write_byte_run img2 f.width [] = (br2, none) ∧
      FlicFile.add_frame (FlicFile.set_palette f colors) (some img)
        = ({ f with palette := colors, next_palette := none,
                    frames := f.frames ++ [write_frame_type [pal, br] 0 0 0] }, none) ∧
      FlicFile.add_frame
          { f with palette := colors, next_palette := none,
                   frames := f.frames ++ [write_frame_type [pal, br] 0 0 0] }
          (some img2)
        = ({ f with palette := colors, next_palette := none,
                    frames := f.frames ++ [write_frame_type [pal, br] 0 0 0,
                                           write_frame_type [br2] 0 0 0] }, none) := by
  obtain ⟨c0, ctl, rfl⟩ : ∃ a l, colors = a :: l := by
    cases colors
    · exact absurd rfl hc
    · exact ⟨_, _, rfl⟩
  constructor
  · simp [FlicFile.add_frame, hpal, hnext, truthy]
  · rcases hwpe : write_palette (c0 :: ctl) with e | pal
    · rw [hwpe] at hwp
      exact Bool.noConfusion hwp
    · rcases hbre : write_byte_run img f.width [] with ⟨br, err⟩
      rw [hbre] at hbr
      have herr : err = none := hbr
      subst herr
      rcases hbre2 : write_byte_run img2 f.width [] with ⟨br2, err2⟩
      rw [hbre2] at hbr2
      have herr2 : err2 = none := hbr2
      subst herr2
      obtain ⟨p0, ptl, rfl⟩ : ∃ a l, pal = a :: l := by
        cases pal
        · exact absurd rfl (write_palette_ne_nil _ _ hwpe)
        · exact ⟨_, _, rfl⟩
      obtain ⟨b0, btl, rfl⟩ : ∃ a l, br = a :: l := by
        cases br
        · exact absurd rfl (write_byte_run_ok_ne_nil _ _ _ hbre)
        · exact ⟨_, _, rfl⟩
      obtain ⟨b20, b2tl, rfl⟩ : ∃ a l, br2 = a :: l := by
        cases br2
        · exact absurd rfl (write_byte_run_ok_ne_nil _ _ _ hbre2)
        · exact ⟨_, _, rfl⟩
      refine ⟨_, _, _, rfl, rfl, rfl, ?_, ?_⟩
      · simp [FlicFile.add_frame, FlicFile.set_palette, addFrameByteRun,
              truthy, hpal, hwpe, hbre]
      · simp [FlicFile.add_frame, addFrameByteRun, truthy, hbre2]

/-- Witness for `add_frame_palette_machine`: a 2x2 file, one staged color,
two 4-pixel frames. -/
theorem add_frame_palette_machine_witness :
    FlicFile.add_frame (FlicFile.init 2 2 5) (some [0, 0, 0, 0])
      = (FlicFile.init 2 2 5, some EncErr.paletteNotSet) ∧
    ∃ pal br br2,
      write_palette [⟨1, 2, 3⟩] = Except.ok pal ∧
      write_byte_run [0, 0, 0, 0] (FlicFile.init 2 2 5).width [] = (br, none) ∧
      write_byte_run [1, 1, 2, 2] (FlicFile.init 2 2 5).width [] = (br2, none) ∧
      FlicFile.add_frame (FlicFile.set_palette (FlicFile.init 2 2 5) [⟨1, 2, 3⟩])
          (some [0, 0, 0, 0])
        = ({ FlicFile.init 2 2 5 with
              palette := [⟨1, 2, 3⟩]
              next_palette := none
              frames := (FlicFile.init 2 2 5).frames
                ++ [write_frame_type [pal, br] 0 0 0] }, none) ∧
      FlicFile.add_frame
          { FlicFile.init 2 2 5 with
            palette := [⟨1, 2, 3⟩]
            next_palette := none
            frames := (FlicFile.init 2 2 5).frames
              ++ [write_frame_type [pal, br] 0 0 0] }
          (some [1, 1, 2, 2])
        = ({ FlicFile.init 2 2 5 with
              palette := [⟨1, 2, 3⟩]
              next_palette := none
              frames := (FlicFile.init 2 2 5).frames
                ++ [write_frame_type [pal, br] 0 0 0,
                    write_frame_type [br2] 0 0 0] }, none) :=
  add_frame_palette_machine (FlicFile.init 2 2 5) [⟨1, 2, 3⟩] [0, 0, 0, 0] [1, 1, 2, 2]
    rfl rfl (by decide) (by decide) (by decide) (by decide)

/-- Claim C8: `FlicFile.write` emits a 128-byte header whose total-size field
(little-endian `u32` at bytes 0..3) is the sum of all accumulated frame-chunk
byte lengths plus 128, whose magic field at bytes 4..5 is 0xAF12, and whose
frame-count field at bytes 6..7 is the number of accumulated frame chunks,
followed by every accumulated frame chunk in append order. -/
theorem flic_write_header (f : FlicFile)
    (h1 : (f.frames.map List.length).sum + 128 < 4294967296)
    (h2 : f.frames.length < 65536) (h3 : f.width < 65536) (h4 : f.height < 65536)
    (h5 : f.delay < 4294967296) :
    ∃ hdr, FlicFile.write f [] = some (hdr ++ f.frames.flatten) ∧
      hdr.length = 128 ∧
      hdr.take 4 = u32le ((f.frames.map List.length).sum + 128) ∧
      (hdr.drop 4).take 2 = u16le 0xAF12 ∧
      (hdr.drop 6).take 2 = u16le f.frames.length := by
  refine ⟨u32le ((f.frames.map List.length).sum + 128) ++ (u16le 0xAF12
      ++ (u16le f.frames.length ++ (u16le f.width ++ (u16le f.height ++ (u16le 8
      ++ (u16le 0 ++ (u32le f.delay ++ (List.replicate 2 0
      ++ (u32le 0 ++ (u32le 0 ++ (u32le 0 ++ (u32le 0 ++ (u16le 1 ++ (u16le 1
      ++ List.replicate 86 0)))))))))))))), ?_, ?_, ?_, ?_, ?_⟩
  · unfold FlicFile.write write_header
    rw [if_pos ⟨h1, h2, h3, h4, h5⟩]
    simp only [List.append_assoc, List.nil_append]
  · simp [u32le, u16le, List.length_append, List.length_replicate]
  · exact List.take_left' (by simp [u32le])
  · rw [List.drop_left' (show (u32le ((f.frames.map List.length).sum + 128)).length = 4
        from by simp [u32le])]
    exact List.take_left' (by simp [u16le])
  · rw [show (6 : Nat) = 4 + 2 from rfl, ← List.drop_drop]
    rw [List.drop_left' (show (u32le ((f.frames.map List.length).sum + 128)).length = 4
        from by simp [u32le])]
    rw [List.drop_left' (show (u16le 0xAF12).length = 2 from by simp [u16le])]
    exact List.take_left' (by simp [u16le])

/-- Witness for `flic_write_header`: one 3-byte frame chunk, so the declared
total size is 131. -/
theorem flic_write_header_witness :
    ∃ hdr, FlicFile.write (⟨[], [[1, 2, 3]], none, 2, 2, 500⟩ : FlicFile) []
        = some (hdr ++ (⟨[], [[1, 2, 3]], none, 2, 2, 500⟩ : FlicFile).frames.flatten) ∧
      hdr.length = 128 ∧
      hdr.take 4 = u32le
        (((⟨[], [[1, 2, 3]], none, 2, 2, 500⟩ : FlicFile).frames.map List.length).sum + 128) ∧
      (hdr.drop 4).take 2 = u16le 0xAF12 ∧
      (hdr.drop 6).take 2
        = u16le (⟨[], [[1, 2, 3]], none, 2, 2, 500⟩ : FlicFile).frames.length :=
  flic_write_header ⟨[], [[1, 2, 3]], none, 2, 2, 500⟩ (by decide) (by decide)
    (by decide) (by decide) (by decide)
